import Mathlib

/-!
Verification of `simpletree.py`, a gitignore-filtered directory tree printer.

The embedding models the filesystem as a finite tree of nodes (`FsNode`): files
carry a readability flag (an unreadable file makes `open` raise) and their text
content; directories carry a listability flag (an unlistable directory makes
`iterdir` raise `PermissionError`) and an association list of named children,
in the order the operating system would yield them from `iterdir`.

Python exceptions are modelled by the `Except TErr` monad: a raised, uncaught
exception is `Except.error`; normal completion is `Except.ok`.  The printed
output is modelled as the list of printed lines, in order.

String-manipulating library calls of the source (`os.path.normpath`,
`os.path.basename`, `os.path.join`, `pathlib.PurePosixPath` parsing,
`str.strip`, `str.split`, `fnmatch.fnmatch`) are modelled for POSIX paths by
structurally recursive functions over `List Char`, so that every definition
evaluates inside the kernel.
-/

/-- Exceptions of the model: `permission` is Python's `PermissionError`,
`isADir` is `IsADirectoryError` (opening a directory for reading), `notFound`
is `FileNotFoundError`, `notADir` is `NotADirectoryError`, and `fuel` marks
recursion-fuel exhaustion of the model (never reached with enough fuel). -/
inductive TErr where
  | permission
  | isADir
  | notFound
  | notADir
  | fuel
deriving DecidableEq, Repr

/-- Filesystem node: a file (with a readability flag and its text content) or
a directory (with a listability flag and its children, named, in the order
`iterdir` yields them). -/
inductive FsNode where
  | file (readable : Bool) (content : String)
  | dir (listable : Bool) (children : List (String × FsNode))

/-- Whether a node is a directory, as Python's `Path.is_dir` reports it. -/
def isDirNode : FsNode → Bool
  | .dir _ _ => true
  | .file _ _ => false

/-! ## Character and string utilities -/

/-- Characters stripped by Python's `str.strip()` with no argument. -/
def pyWhite (c : Char) : Bool :=
  c == ' ' || c == '\t' || c == '\n' || c == '\r' || c == '\x0b' || c == '\x0c'

/-- Strip characters satisfying `p` from both ends, as Python `str.strip`. -/
def stripBoth (p : Char → Bool) (l : List Char) : List Char :=
  ((l.dropWhile p).reverse.dropWhile p).reverse

/-- Python `line.strip()`. -/
def pyStrip (s : String) : String := String.mk (stripBoth pyWhite s.data)

/-- Python `line.strip('/')`: remove leading and trailing slashes. -/
def stripSlashes (s : String) : String := String.mk (stripBoth (· == '/') s.data)

/-- Python `pattern.rstrip('/')`: remove trailing slashes. -/
def rstripSlash (s : String) : String :=
  String.mk ((s.data.reverse.dropWhile (· == '/')).reverse)

/-- Python `s.startswith(t)`. -/
def strStartsWith (s t : String) : Bool := List.isPrefixOf t.data s.data

/-- Python `s.endswith(t)`. -/
def strEndsWith (s t : String) : Bool := List.isSuffixOf t.data s.data

/-- Python `s.lower()`, for the ASCII range. -/
def lowerChars (l : List Char) : List Char := l.map Char.toLower

/-- Split a character list at every occurrence of the character `sep`, as
Python `s.split(sep)` for a one-character separator. -/
def splitChar (sep : Char) : List Char → List (List Char)
  | [] => [[]]
  | c :: r =>
    if c = sep then [] :: splitChar sep r
    else
      match splitChar sep r with
      | h :: t => (c :: h) :: t
      | [] => [[c]]

/-- Split at every non-overlapping occurrence of `**`, scanning left to
right, as Python `pattern.split('**')`. -/
def splitSS : List Char → List (List Char)
  | '*' :: '*' :: r => [] :: splitSS r
  | c :: r =>
    match splitSS r with
    | h :: t => (c :: h) :: t
    | [] => [[c]]
  | [] => [[]]

/-- Python `'**' in pattern`: does `**` occur as a substring. -/
def hasSS : List Char → Bool
  | '*' :: '*' :: _ => true
  | _ :: r => hasSS r
  | [] => false

/-- Join strings with `/` separators, as Python `'/'.join`. -/
def joinSlash : List String → String
  | [] => ""
  | h :: t => t.foldl (fun acc x => acc ++ "/" ++ x) h

/-! ## Shell-glob matching, modelling Python `fnmatch.fnmatch` on POSIX

`fnmatch.translate` turns the pattern into a regular expression matched
against the whole string: `*` becomes `.*` (matching any characters, slashes
and newlines included), `?` matches any single character, and `[...]` is a
character class with optional leading `!` negation, a literal `]` when it is
the first class character, and `a-b` ranges (a hyphen at either end is a
literal).  A `[` with no closing `]` is a literal `[`.  Degenerate classes
(such as an empty range with reversed endpoints) simply match no character
here, where `translate` instead patches the compiled expression; no theorem
below exercises such a class.  The matcher carries explicit fuel so that it is
structurally recursive and kernel-evaluable; `pattern length + string length`
strictly decreases at every step, so the fuel `p.length + s.length + 1` used
by `globMatch` is always sufficient. -/

/-- Break a character list at the first `]`, returning the part before and
the part after. -/
def breakRB : List Char → Option (List Char × List Char)
  | [] => none
  | c :: r =>
    if c = ']' then some ([], r)
    else
      match breakRB r with
      | some (a, b) => some (c :: a, b)
      | none => none

/-- Parse the content of a character class into single characters and ranges
(a single character `c` is the range `(c, c)`). -/
def parseItems : List Char → List (Char × Char)
  | a :: '-' :: b :: rest => (a, b) :: parseItems rest
  | a :: rest => (a, a) :: parseItems rest
  | [] => []

/-- Strip a leading `!` negation marker from a class body. -/
def stripNeg : List Char → Bool × List Char
  | '!' :: r => (true, r)
  | p => (false, p)

/-- Parse a class body after stripping the negation marker: a `]` that is
the first character is class content; the class closes at the next `]`. -/
def parseClsBody (neg : Bool) (p1 : List Char) : Option (Bool × List (Char × Char) × List Char) :=
  match p1 with
  | ']' :: r =>
    match breakRB r with
    | some (content, rest) => some (neg, parseItems (']' :: content), rest)
    | none => none
  | _ =>
    match breakRB p1 with
    | some (content, rest) => some (neg, parseItems content, rest)
    | none => none

/-- Parse a character class after an opening `[`: returns the negation flag,
the items and the remaining pattern, or `none` when there is no closing `]`
(in which case the `[` is a literal). -/
def parseCls (p : List Char) : Option (Bool × List (Char × Char) × List Char) :=
  parseClsBody (stripNeg p).1 (stripNeg p).2

/-- Does character `d` fall in one of the class items. -/
def clsMem (items : List (Char × Char)) (d : Char) : Bool :=
  items.any (fun i => i.1 ≤ d && d ≤ i.2)

/-- Fuelled whole-string glob matcher: `globMatchAux fuel pattern string`. -/
def globMatchAux : Nat → List Char → List Char → Bool
  | 0, _, _ => false
  | _ + 1, [], s => s.isEmpty
  | fuel + 1, c :: p, s =>
    if c = '*' then
      globMatchAux fuel p s ||
        (match s with
         | [] => false
         | _ :: t => globMatchAux fuel (c :: p) t)
    else if c = '?' then
      match s with
      | [] => false
      | _ :: t => globMatchAux fuel p t
    else if c = '[' then
      match parseCls p with
      | some (neg, items, p2) =>
        match s with
        | [] => false
        | d :: t => (neg != clsMem items d) && globMatchAux fuel p2 t
      | none =>
        match s with
        | [] => false
        | d :: t => (d == '[') && globMatchAux fuel p t
    else
      match s with
      | [] => false
      | d :: t => (d == c) && globMatchAux fuel p t

/-- Whole-string glob match of `string` against `pattern`, modelling
`fnmatch.fnmatch(string, pattern)` on POSIX. -/
def globMatch (p s : List Char) : Bool :=
  globMatchAux (p.length + s.length + 1) p s

/-- Glob match on strings: `fnmatchStr s pat` is `fnmatch.fnmatch(s, pat)`. -/
def fnmatchStr (s pat : String) : Bool := globMatch pat.data s.data

/-! ## Path-string functions -/

/-- Keep a path component: Python path parsing drops empty components and
single dots. -/
def keepComp (cur : List Char) : List String :=
  if cur.isEmpty || cur == ['.'] then [] else [String.mk cur]

/-- Accumulating scanner producing the retained components of a path. -/
def partsAux (cur : List Char) : List Char → List String
  | [] => keepComp cur
  | c :: rest =>
    if c = '/' then keepComp cur ++ partsAux [] rest
    else partsAux (cur ++ [c]) rest

/-- Components of a path string: split on `/`, dropping empty components and
single dots (`..` is kept).  These are `pathlib.PurePosixPath(s).parts`
without the anchor, and also the components retained by
`os.path.normpath`. -/
def pathParts (s : String) : List String := partsAux [] s.data

/-- Root anchor of a POSIX path string as `pathlib` computes it: exactly two
leading slashes are preserved, one or three and more collapse to one. -/
def pathRoot (s : String) : String :=
  if strStartsWith s "/" then
    (if strStartsWith s "//" && !strStartsWith s "///" then "//" else "/")
  else ""

/-- Python `str(pathlib.PurePosixPath(s))`: spurious slashes and single dots
are collapsed, the empty path prints as `.`. -/
def pathStr (s : String) : String :=
  let ps := pathParts s
  if pathRoot s == "" && ps.isEmpty then "." else pathRoot s ++ joinSlash ps

/-- Python `pathlib.PurePosixPath(s).name`: the final component beyond the
anchor, or the empty string. -/
def pathName (s : String) : String := ((pathParts s).getLast?).getD ""

/-- Python `os.path.normpath(s)` for POSIX: collapse separators and single
dots and resolve `..` textually. -/
def normpath (s : String) : String :=
  if s == "" then "." else
  let slashes : Nat :=
    if strStartsWith s "/" then
      (if strStartsWith s "//" && !strStartsWith s "///" then 2 else 1)
    else 0
  let nc := (pathParts s).foldl
    (fun acc comp =>
      if comp != ".." || (slashes == 0 && acc.isEmpty) || (acc.getLast? == some "..") then
        acc ++ [comp]
      else if !acc.isEmpty then acc.dropLast
      else acc)
    ([] : List String)
  let out := String.mk (List.replicate slashes '/') ++ joinSlash nc
  if out == "" then "." else out

/-- Characters after the last slash. -/
def afterLastSlash (l : List Char) : List Char :=
  ((l.reverse.takeWhile (fun c => c != '/')).reverse)

/-- Python `os.path.basename(s)`: everything after the last `/`. -/
def basenameStr (s : String) : String := String.mk (afterLastSlash s.data)

/-- Python `os.path.join(directory, '.gitignore')` for POSIX. -/
def gitignorePath (d : String) : String :=
  if d == "" then ".gitignore"
  else if strEndsWith d "/" then d ++ ".gitignore"
  else d ++ "/.gitignore"

/-- Python `str(parent / name)` for a child entry yielded by `iterdir`, where
`parentS` is the already-normalized `str` of the parent path. -/
def childPathStr (parentS name : String) : String :=
  if parentS == "." then name
  else if strEndsWith parentS "/" then parentS ++ name
  else parentS ++ "/" ++ name

/-! ## Filesystem queries -/

/-- Find a child node by name in a directory's children. -/
def lookupChild (cs : List (String × FsNode)) (name : String) : Option FsNode :=
  (cs.find? (fun c => c.1 == name)).map (·.2)

/-- Resolve a component list against the filesystem, starting at its root
(the model conflates the working directory and the filesystem root, so
absolute and relative paths resolve alike). -/
def lookupNode : FsNode → List String → Option FsNode
  | n, [] => some n
  | .dir _ cs, name :: rest =>
    match lookupChild cs name with
    | some c => lookupNode c rest
    | none => none
  | .file _ _, _ :: _ => none

/-- List a node's children, raising the exception `iterdir` would raise. -/
def iterdirNode : Option FsNode → Except TErr (List (String × FsNode))
  | some (.dir true cs) => .ok cs
  | some (.dir false _) => .error .permission
  | some (.file _ _) => .error .notADir
  | none => .error .notFound

/-- Python `Path(d).is_dir()` against the model filesystem. -/
def isDirAt (fs : FsNode) (d : String) : Bool :=
  match lookupNode fs (pathParts d) with
  | some (.dir _ _) => true
  | _ => false

/-- Python `Path(d).iterdir()` against the model filesystem. -/
def iterdirAt (fs : FsNode) (d : String) : Except TErr (List (String × FsNode)) :=
  iterdirNode (lookupNode fs (pathParts d))

/-- Python `Path(d).parent.iterdir()`: drop the final component and list. -/
def parentIterdir (fs : FsNode) (d : String) : Except TErr (List (String × FsNode)) :=
  iterdirNode (lookupNode fs ((pathParts d).dropLast))

/-! ## The gitignore parser (`GitignoreParser` of the source) -/

/-- The fixed default pattern list of `GitignoreParser.__init__`. -/
def defaultPatterns : List String :=
  ["node_modules", "dist", "__pycache__", "*.pyc", ".git",
   ".DS_Store", "build", ".env", "venv", ".venv"]

/-- Lines of a text file as Python's line iteration yields them (without the
newline terminators; the source strips each line anyway). -/
def fileLines (content : String) : List String :=
  (splitChar '\n' content.data).map String.mk

/-- The retention test of `load_gitignore`: Python
`if line and not line.startswith('#')` applied to the stripped line. -/
def keepLine (line : String) : Bool := line != "" && !strStartsWith line "#"

/-- One step of the `load_gitignore` reading loop: strip the line, skip
blanks and comments, strip slashes and append. -/
def loadStep (pats : List String) (rawLine : String) : List String :=
  let line := pyStrip rawLine
  if keepLine line then pats ++ [stripSlashes line] else pats

/-- Model of `GitignoreParser.load_gitignore(directory)`: start from the
default patterns; if a `.gitignore` exists directly inside `directory`, read
it line by line (opening it raises if it is unreadable or is a directory, and
the source does not catch that: `os.path.exists` only guards absence). -/
def loadGitignore (fs : FsNode) (directory : String) : Except TErr (List String) :=
  match lookupNode fs (pathParts (gitignorePath directory)) with
  | none => .ok defaultPatterns
  | some (.file true content) => .ok ((fileLines content).foldl loadStep defaultPatterns)
  | some (.file false _) => .error .permission
  | some (.dir _ _) => .error .isADir

/-- The per-pattern test of `GitignoreParser.should_ignore`, for a given
normalized path `np` and base name `name`: skip patterns with a trailing
slash for non-directories, strip trailing slashes, match the glob against the
full path or the base name, then try the simplified `**` prefix/suffix
rule. -/
def matchesPat (np name : String) (isDir : Bool) (pat0 : String) : Bool :=
  if strEndsWith pat0 "/" && !isDir then false
  else
    let pat := rstripSlash pat0
    (globMatch pat.data np.data || globMatch pat.data name.data) ||
      (if hasSS pat.data then
        match splitSS pat.data with
        | [a, b] => List.isPrefixOf a np.data && List.isSuffixOf b np.data
        | _ => false
      else false)

/-- Model of `GitignoreParser.should_ignore(path, is_dir)` over a pattern
list: normalize the path, take its base name, and test every pattern. -/
def shouldIgnore (pats : List String) (path : String) (isDir : Bool) : Bool :=
  let np := normpath path
  pats.any (matchesPat np (basenameStr np) isDir)

/-! ## Sibling sorting -/

/-- Lexicographic order on character lists, as Python compares strings. -/
def charsLe : List Char → List Char → Bool
  | [], _ => true
  | _ :: _, [] => false
  | a :: as, b :: bs =>
    if a < b then true else if b < a then false else charsLe as bs

/-- Sort comparator of the source: Python key
`(not x.is_dir(), x.name.lower())` compared lexicographically, directories
first and then case-insensitive name order. -/
def childLeB (a b : String × FsNode) : Bool :=
  if (!isDirNode a.2) == (!isDirNode b.2) then
    charsLe (lowerChars a.1.data) (lowerChars b.1.data)
  else !(!isDirNode a.2)

/-- The sort comparator as a relation. -/
def childLe (a b : String × FsNode) : Prop := childLeB a b = true

instance : DecidableRel childLe := fun a b =>
  inferInstanceAs (Decidable (childLeB a b = true))

/-- Python `sorted(list(path.iterdir()), key=lambda x: (not x.is_dir(),
x.name.lower()))`.  Python's sort is stable, and a stable sort by a total
preorder has a unique result, so the stable `List.insertionSort` computes
exactly it. -/
def sortChildren (cs : List (String × FsNode)) : List (String × FsNode) :=
  List.insertionSort childLe cs

/-! ## The tree renderer (`tree` of the source) -/

/-- Model of the recursive `tree(directory, level, prefix, gitignore_parser)`
function.  The returned list is the sequence of printed lines; an
`Except.error` is an uncaught Python exception.  `fuel` bounds the recursion
depth of the model only (the Python recursion is bounded by the finite
filesystem); with fuel exceeding the filesystem depth the `.fuel` error is
never produced. -/
def treeGo (fs : FsNode) : Nat → String → Nat → String → List String → Except TErr (List String)
  | 0, _, _, _, _ => .error .fuel
  | fuel + 1, directory, level, pre, pats0 => do
    let pathS := pathStr directory
    let pats ← if level == 0 then loadGitignore fs directory else .ok pats0
    if shouldIgnore pats pathS (isDirAt fs directory) then
      return []
    else
      let line ←
        if level == 0 then Except.ok (pathName directory)
        else do
          let sibs ← parentIterdir fs directory
          Except.ok (pre ++ (if sibs.isEmpty then "└── " else "├── ") ++ pathName directory)
      if isDirAt fs directory then
        match iterdirAt fs directory with
        | .error .permission => return [line]
        | .error e => .error e
        | .ok rawChildren =>
          let contents := sortChildren rawChildren
          let kept := contents.filter
            (fun it => !shouldIgnore pats (childPathStr pathS it.1) (isDirNode it.2))
          let n := kept.length
          let childLines ← kept.enum.foldlM
            (fun acc iv => do
              let newPre :=
                if level == 0 then "    "
                else pre ++ (if iv.1 == n - 1 then "    " else "│   ")
              let ls ← treeGo fs fuel (childPathStr pathS iv.2.1) (level + 1) newPre pats
              return acc ++ ls)
            []
          return line :: childLines
      else
        return [line]

/-- The program entry: `main` runs `tree(path)` at level 0 with an empty
prefix and no parser, printing the tree of the given root path. -/
def tree (fs : FsNode) (fuel : Nat) (directory : String) : Except TErr (List String) :=
  treeGo fs fuel directory 0 "" []

/-- The child-processing loop of `tree`, exactly as `treeGo` runs it on the
filtered child list: definitionally equal to the loop inside `treeGo`. -/
def treeChildren (fs : FsNode) (fuel : Nat) (pathS : String) (level : Nat) (pre : String)
    (pats : List String) (kept : List (String × FsNode)) : Except TErr (List String) :=
  kept.enum.foldlM
    (fun acc iv => do
      let newPre :=
        if level == 0 then "    "
        else pre ++ (if iv.1 == kept.length - 1 then "    " else "│   ")
      let ls ← treeGo fs fuel (childPathStr pathS iv.2.1) (level + 1) newPre pats
      return acc ++ ls)
    []

/-- The extra patterns a readable `.gitignore` contributes, phrased as the
specification describes them: each line stripped, blank and `#` lines
dropped, surrounding slashes removed, in file order. -/
def gitignoreExtras (content : String) : List String :=
  (((fileLines content).map pyStrip).filter keepLine).map stripSlashes

/-! ## Concrete filesystem states used by the claim theorems -/

/-- A root `r` with a single child file `a`: its only child is the last
surviving sibling. -/
def fsConn : FsNode := .dir true [("r", .dir true [("a", .file true "")])]

/-- A root `r` whose `.gitignore` holds the directory-only line `foo/`, next
to a plain file named `foo`. -/
def fsDirOnly : FsNode :=
  .dir true [("r", .dir true [(".gitignore", .file true "foo/\n"), ("foo", .file true "")])]

/-- A root `r` whose `.gitignore` exists but cannot be opened. -/
def fsUnreadable : FsNode :=
  .dir true [("r", .dir true [(".gitignore", .file false "x")])]

/-- A root `r` whose `.gitignore` holds one line `build/`. -/
def fsGitW : FsNode :=
  .dir true [("r", .dir true [(".gitignore", .file true "build/\n")])]

/-- A root `proj` with `.gitignore` line `*.log` and files `x.log` and
`x.logger`. -/
def fsLog : FsNode :=
  .dir true [("proj", .dir true
    [(".gitignore", .file true "*.log\n"), ("x.log", .file true ""),
     ("x.logger", .file true "")])]

/-- A root `myproj` holding files `b.txt` and `a.txt` and a subdirectory
`sub`, listed by the operating system in that order. -/
def fsSort : FsNode :=
  .dir true [("myproj", .dir true
    [("b.txt", .file true ""), ("a.txt", .file true ""), ("sub", .dir true [])])]

/-- A working directory holding only a directory named `node_modules`. -/
def fsNm : FsNode := .dir true [("node_modules", .dir true [])]

/-- A root `r` with an unlistable subdirectory `locked` and a file `z`. -/
def fsPerm : FsNode :=
  .dir true [("r", .dir true [("locked", .dir false []), ("z", .file true "")])]

/-- A root `r` that is itself unlistable. -/
def fsPermRoot : FsNode := .dir true [("r", .dir false [])]

/-- An empty working directory. -/
def fsEmpty : FsNode := .dir true []

/-! ## Fuel sufficiency of the glob matcher -/

theorem breakRB_length {l a b : List Char} (h : breakRB l = some (a, b)) :
    b.length < l.length := by
  induction l generalizing a b with
  | nil => simp [breakRB] at h
  | cons c r ih =>
    simp only [breakRB] at h
    by_cases hc : c = ']'
    · rw [if_pos hc] at h
      simp only [Option.some.injEq, Prod.mk.injEq] at h
      obtain ⟨-, h2⟩ := h
      subst h2
      simp
    · rw [if_neg hc] at h
      cases hbr : breakRB r with
      | none => rw [hbr] at h; exact absurd h (by simp)
      | some ab =>
        obtain ⟨a1, b1⟩ := ab
        rw [hbr] at h
        simp only [Option.some.injEq, Prod.mk.injEq] at h
        obtain ⟨-, h2⟩ := h
        subst h2
        exact Nat.lt_succ_of_lt (ih hbr)

theorem parseClsBody_length {neg neg1 : Bool} {p1 : List Char}
    {items : List (Char × Char)} {r : List Char}
    (h : parseClsBody neg p1 = some (neg1, items, r)) : r.length < p1.length := by
  rw [parseClsBody.eq_def] at h
  split at h
  next rr =>
    cases hbr : breakRB rr with
    | none => rw [hbr] at h; exact absurd h (by simp)
    | some ab =>
      obtain ⟨a1, b1⟩ := ab
      rw [hbr] at h
      simp only [Option.some.injEq, Prod.mk.injEq] at h
      obtain ⟨-, -, h3⟩ := h
      subst h3
      exact Nat.lt_succ_of_lt (breakRB_length hbr)
  next =>
    cases hbr : breakRB p1 with
    | none => rw [hbr] at h; exact absurd h (by simp)
    | some ab =>
      obtain ⟨a1, b1⟩ := ab
      rw [hbr] at h
      simp only [Option.some.injEq, Prod.mk.injEq] at h
      obtain ⟨-, -, h3⟩ := h
      subst h3
      exact breakRB_length hbr

theorem stripNeg_length (p : List Char) : (stripNeg p).2.length ≤ p.length := by
  rw [stripNeg.eq_def]
  split
  · simp
  · simp

theorem parseCls_length {p : List Char} {neg : Bool} {items : List (Char × Char)} {r : List Char}
    (h : parseCls p = some (neg, items, r)) : r.length < p.length :=
  Nat.lt_of_lt_of_le (parseClsBody_length h) (stripNeg_length p)

theorem globMatchAux_congr :
    ∀ f g p s, p.length + s.length < f → p.length + s.length < g →
      globMatchAux f p s = globMatchAux g p s := by
  intro f
  induction f using Nat.strong_induction_on with
  | _ f ih =>
    intro g p s hf hg
    match f, g with
    | f1 + 1, g1 + 1 =>
      match p with
      | [] => rfl
      | c :: p =>
        simp only [globMatchAux]
        have hlt1 : p.length + s.length < f1 := by
          simp only [List.length_cons] at hf; omega
        have hlt1g : p.length + s.length < g1 := by
          simp only [List.length_cons] at hg; omega
        by_cases hc : c = '*'
        · rw [if_pos hc, if_pos hc]
          have e1 : globMatchAux f1 p s = globMatchAux g1 p s :=
            ih f1 (Nat.lt_succ_self f1) g1 p s hlt1 hlt1g
          rw [e1]
          match s with
          | [] => rfl
          | d :: t =>
            dsimp only
            have e2 : globMatchAux f1 (c :: p) t = globMatchAux g1 (c :: p) t := by
              apply ih f1 (Nat.lt_succ_self f1) g1
              · simp only [List.length_cons] at hf ⊢; omega
              · simp only [List.length_cons] at hg ⊢; omega
            rw [e2]
        · rw [if_neg hc, if_neg hc]
          by_cases hq : c = '?'
          · rw [if_pos hq, if_pos hq]
            match s with
            | [] => rfl
            | d :: t =>
              dsimp only
              apply ih f1 (Nat.lt_succ_self f1) g1
              · simp only [List.length_cons] at hf ⊢; omega
              · simp only [List.length_cons] at hg ⊢; omega
          · rw [if_neg hq, if_neg hq]
            by_cases hb : c = '['
            · rw [if_pos hb, if_pos hb]
              cases hp : parseCls p with
              | none =>
                match s with
                | [] => rfl
                | d :: t =>
                  dsimp only
                  have e : globMatchAux f1 p t = globMatchAux g1 p t := by
                    apply ih f1 (Nat.lt_succ_self f1) g1
                    · simp only [List.length_cons] at hf ⊢; omega
                    · simp only [List.length_cons] at hg ⊢; omega
                  rw [e]
              | some v =>
                obtain ⟨neg, items, p2⟩ := v
                match s with
                | [] => rfl
                | d :: t =>
                  dsimp only
                  have hp2 : p2.length < p.length := parseCls_length hp
                  have e : globMatchAux f1 p2 t = globMatchAux g1 p2 t := by
                    apply ih f1 (Nat.lt_succ_self f1) g1
                    · simp only [List.length_cons] at hf ⊢; omega
                    · simp only [List.length_cons] at hg ⊢; omega
                  rw [e]
            · rw [if_neg hb, if_neg hb]
              match s with
              | [] => rfl
              | d :: t =>
                dsimp only
                have e : globMatchAux f1 p t = globMatchAux g1 p t := by
                  apply ih f1 (Nat.lt_succ_self f1) g1
                  · simp only [List.length_cons] at hf ⊢; omega
                  · simp only [List.length_cons] at hg ⊢; omega
                rw [e]

theorem globMatchAux_big {f : Nat} (p s : List Char) (h : p.length + s.length < f) :
    globMatchAux f p s = globMatch p s :=
  globMatchAux_congr f (p.length + s.length + 1) p s h (Nat.lt_succ_self _)

theorem globMatch_nil (s : List Char) : globMatch [] s = s.isEmpty := rfl

theorem globMatch_star (p s : List Char) :
    globMatch ('*' :: p) s =
      (globMatch p s ||
        match s with
        | [] => false
        | _ :: t => globMatch ('*' :: p) t) := by
  show globMatchAux (p.length + 1 + s.length + 1) ('*' :: p) s = _
  rw [show p.length + 1 + s.length + 1 = (p.length + 1 + s.length) + 1 from rfl]
  simp only [globMatchAux, if_pos rfl]
  rw [globMatchAux_big p s (by omega)]
  match s with
  | [] => rfl
  | d :: t =>
    dsimp only
    rw [globMatchAux_big ('*' :: p) t (by simp only [List.length_cons]; omega)]
    simp

/-- Characters treated literally by the glob matcher. -/
def isLit (c : Char) : Bool := !(c == '*' || c == '?' || c == '[')

theorem globMatch_cons_lit (c : Char) (p s : List Char) (h : isLit c = true) :
    globMatch (c :: p) s =
      (match s with
       | [] => false
       | d :: t => (d == c) && globMatch p t) := by
  simp only [isLit, Bool.not_eq_true', Bool.or_eq_false_iff, beq_eq_false_iff_ne] at h
  obtain ⟨⟨h1, h2⟩, h3⟩ := h
  show globMatchAux (p.length + 1 + s.length + 1) (c :: p) s = _
  rw [show p.length + 1 + s.length + 1 = (p.length + 1 + s.length) + 1 from rfl]
  simp only [globMatchAux, if_neg h1, if_neg h2, if_neg h3]
  match s with
  | [] => rfl
  | d :: t =>
    dsimp only
    rw [globMatchAux_big p t (by simp only [List.length_cons]; omega)]

theorem globMatch_literal :
    ∀ (p s : List Char), (∀ c ∈ p, isLit c = true) → (globMatch p s = true ↔ s = p) := by
  intro p
  induction p with
  | nil =>
    intro s _
    rw [globMatch_nil]
    exact List.isEmpty_iff
  | cons c p ih =>
    intro s hp
    rw [globMatch_cons_lit c p s (hp c (List.mem_cons_self c p))]
    match s with
    | [] => simp
    | d :: t =>
      simp only [Bool.and_eq_true, beq_iff_eq, List.cons.injEq]
      rw [ih t (fun x hx => hp x (List.mem_cons_of_mem c hx))]

theorem globMatch_star_literal (lits : List Char) (hl : ∀ c ∈ lits, isLit c = true) :
    ∀ s : List Char, (globMatch ('*' :: lits) s = true ↔ lits <:+ s) := by
  intro s
  induction s with
  | nil =>
    rw [globMatch_star]
    simp only [Bool.or_false]
    rw [globMatch_literal lits [] hl]
    constructor
    · intro h; rw [← h]
    · intro h; exact (List.suffix_nil.mp h).symm
  | cons d t ih =>
    rw [globMatch_star]
    simp only [Bool.or_eq_true]
    rw [globMatch_literal lits (d :: t) hl, ih, List.suffix_cons_iff]
    constructor
    · rintro (h | h)
      · exact Or.inl h.symm
      · exact Or.inr h
    · rintro (h | h)
      · exact Or.inl h.symm
      · exact Or.inr h

/-! ## Base-name lemmas -/

theorem takeWhile_append_all {p : Char → Bool} (u v : List Char) (h : ∀ c ∈ u, p c = true) :
    (u ++ v).takeWhile p = u ++ v.takeWhile p := by
  induction u with
  | nil => rfl
  | cons c r ih =>
    simp only [List.cons_append, List.takeWhile_cons, h c (List.mem_cons_self c r), if_true]
    rw [ih (fun x hx => h x (List.mem_cons_of_mem c hx))]

theorem afterLastSlash_no_slash (l : List Char) (h : ('/' : Char) ∉ l) :
    afterLastSlash l = l := by
  unfold afterLastSlash
  rw [List.takeWhile_eq_self_iff.mpr ?_, List.reverse_reverse]
  intro x hx
  rw [List.mem_reverse] at hx
  exact bne_iff_ne.mpr (fun e => h (e ▸ hx))

theorem afterLastSlash_suffix (l w : List Char) (hw : ('/' : Char) ∉ w) (hs : w <:+ l) :
    w <:+ afterLastSlash l := by
  obtain ⟨a, rfl⟩ := hs
  unfold afterLastSlash
  rw [List.reverse_append]
  rw [takeWhile_append_all w.reverse a.reverse ?_]
  · rw [List.reverse_append, List.reverse_reverse]
    exact List.suffix_append _ w
  · intro c hc
    rw [List.mem_reverse] at hc
    refine bne_iff_ne.mpr (fun e => hw ?_)
    rw [← e]
    exact hc

/-! ## Path component lemmas -/

theorem partsAux_append_slash (w : List Char) :
    ∀ (a cur : List Char), partsAux cur (a ++ '/' :: w) = partsAux cur a ++ partsAux [] w := by
  intro a
  induction a with
  | nil =>
    intro cur
    simp [partsAux]
  | cons c a ih =>
    intro cur
    by_cases hc : c = '/'
    · subst hc
      simp only [List.cons_append, partsAux, List.append_eq]
      rw [ih []]
      simp [List.append_assoc]
    · simp only [List.cons_append, partsAux, List.append_eq]
      simp only [if_neg hc]
      exact ih (cur ++ [c])

theorem pathParts_gitignore (d : String) :
    pathParts (gitignorePath d) = pathParts d ++ [".gitignore"] := by
  have hgp : partsAux [] (String.data ".gitignore") = [".gitignore"] := rfl
  unfold gitignorePath
  split
  · next h0 =>
    have hd : d = "" := by simpa using h0
    subst hd
    rfl
  · next h0 =>
    split
    · next hend =>
      have hsuf : ['/'] <:+ d.data := by
        have := List.isSuffixOf_iff_suffix.mp hend
        simpa using this
      obtain ⟨e, he⟩ := hsuf
      unfold pathParts
      rw [String.data_append, ← he, List.append_assoc, List.singleton_append]
      rw [partsAux_append_slash]
      have h2 : partsAux [] (e ++ ['/']) = partsAux [] e := by
        rw [show (['/'] : List Char) = '/' :: ([] : List Char) from rfl, partsAux_append_slash]
        simp [partsAux, keepComp]
      rw [h2, hgp]
    · next hend =>
      unfold pathParts
      rw [String.data_append]
      rw [show String.data "/.gitignore" = '/' :: String.data ".gitignore" from rfl]
      rw [partsAux_append_slash, hgp]

theorem lookupNode_append (xs : List String) :
    ∀ (n : FsNode) (ys : List String),
      lookupNode n (xs ++ ys) = (lookupNode n xs).bind (fun m => lookupNode m ys) := by
  induction xs with
  | nil => intro n ys; cases n <;> rfl
  | cons x xs ih =>
    intro n ys
    cases n with
    | file r c => rfl
    | dir b cs =>
      simp only [List.cons_append, lookupNode]
      cases hc : lookupChild cs x with
      | none => rfl
      | some m => exact ih m ys

theorem lookupNode_append_none {n : FsNode} {xs : List String}
    (h : lookupNode n xs = none) (ys : List String) : lookupNode n (xs ++ ys) = none := by
  rw [lookupNode_append, h]
  rfl

/-! ## Gitignore loading lemmas -/

theorem foldl_loadStep (lines : List String) :
    ∀ init, lines.foldl loadStep init =
      init ++ ((lines.map pyStrip).filter keepLine).map stripSlashes := by
  induction lines with
  | nil => intro init; simp
  | cons l ls ih =>
    intro init
    simp only [List.foldl_cons, List.map_cons, List.filter_cons]
    by_cases hk : keepLine (pyStrip l) = true
    · simp only [loadStep, hk, if_true]
      rw [ih]
      simp [List.append_assoc]
    · simp only [loadStep, Bool.not_eq_true] at hk ⊢
      simp only [hk, Bool.false_eq_true, if_false]
      rw [ih]

theorem loadGitignore_file {fs : FsNode} {d content : String}
    (h : lookupNode fs (pathParts (gitignorePath d)) = some (.file true content)) :
    loadGitignore fs d = .ok (defaultPatterns ++ gitignoreExtras content) := by
  simp only [loadGitignore, h]
  rw [foldl_loadStep]
  rfl

theorem loadGitignore_absent {fs : FsNode} {d : String}
    (h : lookupNode fs (pathParts (gitignorePath d)) = none) :
    loadGitignore fs d = .ok defaultPatterns := by
  simp only [loadGitignore, h]

theorem loadGitignore_unreadable {fs : FsNode} {d content : String}
    (h : lookupNode fs (pathParts (gitignorePath d)) = some (.file false content)) :
    loadGitignore fs d = .error .permission := by
  simp only [loadGitignore, h]

theorem loadGitignore_dir {fs : FsNode} {d : String} {b : Bool} {cs : List (String × FsNode)}
    (h : lookupNode fs (pathParts (gitignorePath d)) = some (.dir b cs)) :
    loadGitignore fs d = .error .isADir := by
  simp only [loadGitignore, h]

theorem loadGitignore_extends {fs : FsNode} {d : String} {pats : List String}
    (h : loadGitignore fs d = .ok pats) : ∃ extra, pats = defaultPatterns ++ extra := by
  cases hl : lookupNode fs (pathParts (gitignorePath d)) with
  | none =>
    rw [loadGitignore_absent hl] at h
    simp only [Except.ok.injEq] at h
    exact ⟨[], by simp [← h]⟩
  | some node =>
    cases node with
    | file r c =>
      cases r with
      | true =>
        rw [loadGitignore_file hl] at h
        simp only [Except.ok.injEq] at h
        exact ⟨gitignoreExtras c, h.symm⟩
      | false =>
        rw [loadGitignore_unreadable hl] at h
        exact absurd h (by simp)
    | dir b cs =>
      rw [loadGitignore_dir hl] at h
      exact absurd h (by simp)

/-! ## Per-pattern matching lemmas -/

theorem matchesPat_plain {pat : String} (np name : String) (isDir : Bool)
    (h1 : strEndsWith pat "/" = false) (h2 : rstripSlash pat = pat)
    (h3 : hasSS pat.data = false) :
    matchesPat np name isDir pat =
      (globMatch pat.data np.data || globMatch pat.data name.data) := by
  simp only [matchesPat]
  rw [h1, h2, h3]
  simp

theorem shouldIgnore_of_pat {pats : List String} {pat path : String} {isDir : Bool}
    (hmem : pat ∈ pats)
    (h : matchesPat (normpath path) (basenameStr (normpath path)) isDir pat = true) :
    shouldIgnore pats path isDir = true := by
  unfold shouldIgnore
  exact List.any_eq_true.mpr ⟨pat, hmem, h⟩

theorem shouldIgnore_eq_false {pats : List String} {path : String} {isDir : Bool}
    (h : ∀ pat ∈ pats, matchesPat (normpath path) (basenameStr (normpath path)) isDir pat = false) :
    shouldIgnore pats path isDir = false := by
  unfold shouldIgnore
  exact List.any_eq_false.mpr (fun pat hp => by simp [h pat hp])

theorem matchesPat_literal_false (np : String) (isDir : Bool) (pat : String)
    (hlit : ∀ c ∈ pat.data, isLit c = true)
    (hb : afterLastSlash pat.data = pat.data)
    (h1 : strEndsWith pat "/" = false) (h2 : rstripSlash pat = pat)
    (h3 : hasSS pat.data = false)
    (hn : globMatch pat.data (basenameStr np).data = false) :
    matchesPat np (basenameStr np) isDir pat = false := by
  rw [matchesPat_plain np (basenameStr np) isDir h1 h2 h3, hn, Bool.or_false]
  cases hg : globMatch pat.data np.data with
  | false => rfl
  | true =>
    exfalso
    have hnp : np.data = pat.data := (globMatch_literal pat.data np.data hlit).mp hg
    have hbn : (basenameStr np).data = pat.data := by
      show afterLastSlash np.data = pat.data
      rw [hnp, hb]
    have ht : globMatch pat.data (basenameStr np).data = true := by
      rw [hbn]
      exact (globMatch_literal pat.data pat.data hlit).mpr rfl
    rw [hn] at ht
    exact Bool.false_ne_true ht

theorem matchesPat_starlit_false (np : String) (isDir : Bool) (pat : String) (lits : List Char)
    (hpd : pat.data = '*' :: lits)
    (hlit : ∀ c ∈ lits, isLit c = true)
    (hsl : ('/' : Char) ∉ lits)
    (h1 : strEndsWith pat "/" = false) (h2 : rstripSlash pat = pat)
    (h3 : hasSS pat.data = false)
    (hn : globMatch pat.data (basenameStr np).data = false) :
    matchesPat np (basenameStr np) isDir pat = false := by
  rw [matchesPat_plain np (basenameStr np) isDir h1 h2 h3, hn, Bool.or_false]
  cases hg : globMatch pat.data np.data with
  | false => rfl
  | true =>
    exfalso
    rw [hpd] at hg
    have hsuf : lits <:+ np.data := (globMatch_star_literal lits hlit np.data).mp hg
    have hsuf2 : lits <:+ (basenameStr np).data := by
      show lits <:+ afterLastSlash np.data
      exact afterLastSlash_suffix np.data lits hsl hsuf
    have ht : globMatch pat.data (basenameStr np).data = true := by
      rw [hpd]
      exact (globMatch_star_literal lits hlit _).mpr hsuf2
    rw [hn] at ht
    exact Bool.false_ne_true ht

theorem shouldIgnore_defaults_false (path : String) (isDir : Bool)
    (h : ∀ pat ∈ defaultPatterns, globMatch pat.data (basenameStr (normpath path)).data = false) :
    shouldIgnore defaultPatterns path isDir = false := by
  apply shouldIgnore_eq_false
  intro pat hmem
  simp only [defaultPatterns] at hmem
  fin_cases hmem
  · exact matchesPat_literal_false _ isDir "node_modules" (by decide) rfl (by decide) (by decide)
      (by decide) (h "node_modules" (by simp [defaultPatterns]))
  · exact matchesPat_literal_false _ isDir "dist" (by decide) rfl (by decide) (by decide)
      (by decide) (h "dist" (by simp [defaultPatterns]))
  · exact matchesPat_literal_false _ isDir "__pycache__" (by decide) rfl (by decide) (by decide)
      (by decide) (h "__pycache__" (by simp [defaultPatterns]))
  · exact matchesPat_starlit_false _ isDir "*.pyc" (String.data ".pyc") rfl (by decide) (by decide)
      (by decide) (by decide) (by decide) (h "*.pyc" (by simp [defaultPatterns]))
  · exact matchesPat_literal_false _ isDir ".git" (by decide) rfl (by decide) (by decide)
      (by decide) (h ".git" (by simp [defaultPatterns]))
  · exact matchesPat_literal_false _ isDir ".DS_Store" (by decide) rfl (by decide) (by decide)
      (by decide) (h ".DS_Store" (by simp [defaultPatterns]))
  · exact matchesPat_literal_false _ isDir "build" (by decide) rfl (by decide) (by decide)
      (by decide) (h "build" (by simp [defaultPatterns]))
  · exact matchesPat_literal_false _ isDir ".env" (by decide) rfl (by decide) (by decide)
      (by decide) (h ".env" (by simp [defaultPatterns]))
  · exact matchesPat_literal_false _ isDir "venv" (by decide) rfl (by decide) (by decide)
      (by decide) (h "venv" (by simp [defaultPatterns]))
  · exact matchesPat_literal_false _ isDir ".venv" (by decide) rfl (by decide) (by decide)
      (by decide) (h ".venv" (by simp [defaultPatterns]))

/-! ## Sorting order lemmas -/

theorem charsLe_total : ∀ a b : List Char, charsLe a b = true ∨ charsLe b a = true := by
  intro a
  induction a with
  | nil => intro b; left; rfl
  | cons x xs ih =>
    intro b
    cases b with
    | nil => right; rfl
    | cons y ys =>
      simp only [charsLe]
      rcases lt_trichotomy x y with h | h | h
      · left; rw [if_pos h]
      · subst h
        rw [if_neg (lt_irrefl x), if_neg (lt_irrefl x), if_neg (lt_irrefl x),
          if_neg (lt_irrefl x)]
        exact ih ys
      · right; rw [if_pos h]

theorem charsLe_trans : ∀ a b c : List Char,
    charsLe a b = true → charsLe b c = true → charsLe a c = true := by
  intro a
  induction a with
  | nil => intro b c _ _; rfl
  | cons x xs ih =>
    intro b c hab hbc
    cases b with
    | nil => exact absurd hab (by simp [charsLe])
    | cons y ys =>
      cases c with
      | nil => exact absurd hbc (by simp [charsLe])
      | cons z zs =>
        simp only [charsLe] at hab hbc ⊢
        rcases lt_trichotomy x y with hxy | hxy | hxy
        · rcases lt_trichotomy y z with hyz | hyz | hyz
          · rw [if_pos (lt_trans hxy hyz)]
          · subst hyz; rw [if_pos hxy]
          · rw [if_neg (lt_asymm hyz), if_pos hyz] at hbc
            exact absurd hbc (by simp)
        · subst hxy
          rcases lt_trichotomy x z with hxz | hxz | hxz
          · rw [if_pos hxz]
          · subst hxz
            rw [if_neg (lt_irrefl x), if_neg (lt_irrefl x)]
            rw [if_neg (lt_irrefl x), if_neg (lt_irrefl x)] at hab hbc
            exact ih ys zs hab hbc
          · rw [if_neg (lt_asymm hxz), if_pos hxz] at hbc
            exact absurd hbc (by simp)
        · rw [if_neg (lt_asymm hxy), if_pos hxy] at hab
          exact absurd hab (by simp)

theorem childLeB_total (a b : String × FsNode) : childLeB a b = true ∨ childLeB b a = true := by
  unfold childLeB
  cases ha : isDirNode a.2 <;> cases hb : isDirNode b.2
  · simpa using charsLe_total (lowerChars a.1.data) (lowerChars b.1.data)
  · right; simp
  · left; simp
  · simpa using charsLe_total (lowerChars a.1.data) (lowerChars b.1.data)

theorem childLeB_trans (a b c : String × FsNode) (hab : childLeB a b = true)
    (hbc : childLeB b c = true) : childLeB a c = true := by
  unfold childLeB at hab hbc ⊢
  cases ha : isDirNode a.2 <;> cases hb : isDirNode b.2 <;> cases hc : isDirNode c.2 <;>
    simp_all
  · exact charsLe_trans _ _ _ hab hbc
  · exact charsLe_trans _ _ _ hab hbc

instance : IsTotal (String × FsNode) childLe :=
  ⟨fun a b => childLeB_total a b⟩

instance : IsTrans (String × FsNode) childLe :=
  ⟨fun a b c hab hbc => childLeB_trans a b c hab hbc⟩

theorem sortChildren_perm (cs : List (String × FsNode)) : (sortChildren cs).Perm cs :=
  List.perm_insertionSort childLe cs

theorem sortChildren_sorted (cs : List (String × FsNode)) :
    List.Sorted childLe (sortChildren cs) :=
  List.sorted_insertionSort childLe cs

theorem childLe_spec (a b : String × FsNode) (h : childLe a b) :
    (isDirNode a.2 = true ∧ isDirNode b.2 = false) ∨
      (isDirNode a.2 = isDirNode b.2 ∧
        charsLe (lowerChars a.1.data) (lowerChars b.1.data) = true) := by
  unfold childLe childLeB at h
  cases ha : isDirNode a.2 <;> cases hb : isDirNode b.2 <;> simp_all

/-! ## Renderer step lemmas -/

theorem treeGo_step_pos (fs : FsNode) (fuel lvl : Nat) (d pre : String) (pats : List String) :
    treeGo fs (fuel + 1) d (lvl + 1) pre pats =
      (if shouldIgnore pats (pathStr d) (isDirAt fs d) = true then Except.ok []
       else
         parentIterdir fs d >>= fun sibs =>
           if isDirAt fs d = true then
             match iterdirAt fs d with
             | .error .permission =>
               Except.ok [pre ++ (if sibs.isEmpty then "└── " else "├── ") ++ pathName d]
             | .error e => .error e
             | .ok rawChildren =>
               treeChildren fs fuel (pathStr d) (lvl + 1) pre pats
                   ((sortChildren rawChildren).filter
                     (fun it => !shouldIgnore pats (childPathStr (pathStr d) it.1) (isDirNode it.2))) >>=
               fun childLines =>
                 Except.ok
                   ((pre ++ (if sibs.isEmpty then "└── " else "├── ") ++ pathName d) :: childLines)
           else Except.ok [pre ++ (if sibs.isEmpty then "└── " else "├── ") ++ pathName d]) := by
  simp only [treeGo]
  rw [show ((lvl + 1 : Nat) == 0) = false by simp]
  rfl

theorem treeGo_step_root (fs : FsNode) (fuel : Nat) (d pre : String) (pats0 : List String) :
    treeGo fs (fuel + 1) d 0 pre pats0 =
      loadGitignore fs d >>= fun pats =>
        if shouldIgnore pats (pathStr d) (isDirAt fs d) = true then Except.ok []
        else if isDirAt fs d = true then
          match iterdirAt fs d with
          | .error .permission => Except.ok [pathName d]
          | .error e => .error e
          | .ok rawChildren =>
            treeChildren fs fuel (pathStr d) 0 pre pats
                ((sortChildren rawChildren).filter
                  (fun it => !shouldIgnore pats (childPathStr (pathStr d) it.1) (isDirNode it.2))) >>=
            fun childLines => Except.ok (pathName d :: childLines)
        else Except.ok [pathName d] := by
  simp only [treeGo]
  rfl

theorem exbind_ok {α β : Type} (a : α) (f : α → Except TErr β) :
    (Except.ok a >>= f) = f a := rfl

theorem isDirAt_of_lookup_none {fs : FsNode} {d : String}
    (h : lookupNode fs (pathParts d) = none) : isDirAt fs d = false := by
  unfold isDirAt
  rw [h]

theorem treeGo_ignored_pos (fs : FsNode) (fuel lvl : Nat) (d pre : String) (pats : List String)
    (h : shouldIgnore pats (pathStr d) (isDirAt fs d) = true) :
    treeGo fs (fuel + 1) d (lvl + 1) pre pats = .ok [] := by
  rw [treeGo_step_pos, if_pos h]

theorem treeGo_ignored_root (fs : FsNode) (fuel : Nat) (d pre : String) (pats0 pats : List String)
    (hl : loadGitignore fs d = .ok pats)
    (h : shouldIgnore pats (pathStr d) (isDirAt fs d) = true) :
    treeGo fs (fuel + 1) d 0 pre pats0 = .ok [] := by
  rw [treeGo_step_root, hl]
  simp only [exbind_ok]
  rw [if_pos h]

theorem treeGo_perm_pos (fs : FsNode) (fuel lvl : Nat) (d pre : String) (pats : List String)
    (sibs : List (String × FsNode))
    (hig : shouldIgnore pats (pathStr d) (isDirAt fs d) = false)
    (hpar : parentIterdir fs d = .ok sibs)
    (hdir : isDirAt fs d = true)
    (hperm : iterdirAt fs d = .error .permission) :
    treeGo fs (fuel + 1) d (lvl + 1) pre pats =
      .ok [pre ++ (if sibs.isEmpty then "└── " else "├── ") ++ pathName d] := by
  rw [treeGo_step_pos, if_neg (by simp [hig]), hpar]
  simp only [exbind_ok]
  rw [if_pos hdir, hperm]

theorem treeGo_perm_root (fs : FsNode) (fuel : Nat) (d pre : String) (pats0 pats : List String)
    (hl : loadGitignore fs d = .ok pats)
    (hig : shouldIgnore pats (pathStr d) (isDirAt fs d) = false)
    (hdir : isDirAt fs d = true)
    (hperm : iterdirAt fs d = .error .permission) :
    treeGo fs (fuel + 1) d 0 pre pats0 = .ok [pathName d] := by
  rw [treeGo_step_root, hl]
  simp only [exbind_ok]
  rw [if_neg (by simp [hig]), if_pos hdir, hperm]

theorem treeGo_root_nondir (fs : FsNode) (fuel : Nat) (d pre : String) (pats0 pats : List String)
    (hl : loadGitignore fs d = .ok pats)
    (hig : shouldIgnore pats (pathStr d) (isDirAt fs d) = false)
    (hdir : isDirAt fs d = false) :
    treeGo fs (fuel + 1) d 0 pre pats0 = .ok [pathName d] := by
  rw [treeGo_step_root, hl]
  simp only [exbind_ok]
  rw [if_neg (by simp [hig]), if_neg (by simp [hdir])]

theorem shouldIgnore_node_modules (extra : List String) (s : String) (isDir : Bool)
    (h : basenameStr (normpath s) = "node_modules") :
    shouldIgnore (defaultPatterns ++ extra) s isDir = true := by
  have hmem : ("node_modules" : String) ∈ defaultPatterns ++ extra := by
    simp [defaultPatterns]
  apply shouldIgnore_of_pat hmem
  rw [matchesPat_plain _ _ isDir (by decide) (by decide) (by decide), h]
  have hm : globMatch (String.data "node_modules") (String.data "node_modules") = true := by
    decide
  simp [hm]

/-! ## The claims -/

/-- Claim C1 (code bug): the specification says an entry at depth above zero
gets the connector `└── ` exactly when it is the last surviving sibling, and
`├── ` otherwise; the code computes `is_last` as "the parent directory has no
entries at all", which is false for every existing entry, so even the last
(here: only) sibling is printed with `├── `. -/
theorem last_sibling_connector_is_branch :
    tree fsConn 3 "r" = .ok ["r", "    ├── a"] ∧ "    ├── a" ≠ "    └── a" :=
  ⟨rfl, by decide⟩

/-- Claim C2 (code bug): the specification says a pattern written with a
trailing slash (here the `.gitignore` line `foo/`) never matches a plain
file; but the loader strips the slashes before storing the pattern, so the
trailing-slash test in `should_ignore` never fires and the stored pattern
`foo` matches the file `r/foo`, which is therefore excluded from the output
(only `.gitignore` is printed).  The directory half of the claim does hold:
a directory named `foo` is also excluded. -/
theorem dir_only_pattern_ignores_file :
    loadGitignore fsDirOnly "r" = .ok (defaultPatterns ++ ["foo"]) ∧
    shouldIgnore (defaultPatterns ++ ["foo"]) "r/foo" false = true ∧
    shouldIgnore (defaultPatterns ++ ["foo"]) "r/foo" true = true ∧
    tree fsDirOnly 3 "r" = .ok ["r", "    ├── .gitignore"] :=
  ⟨rfl, rfl, rfl, rfl⟩

/-- Claim C3, counterexample: a filesystem state in which the `.gitignore`
file exists but cannot be opened makes `load_gitignore` raise
`PermissionError` (the guard is `os.path.exists`, not a `try`), so load does
not complete with the default patterns alone. -/
theorem unreadable_gitignore_load_raises :
    loadGitignore fsUnreadable "r" = .error .permission ∧
    loadGitignore fsUnreadable "r" ≠ .ok defaultPatterns := by
  refine ⟨rfl, fun h => ?_⟩
  exact Except.noConfusion
    ((rfl : loadGitignore fsUnreadable "r" = .error .permission).symm.trans h)

/-- Claim C3, amended: after load the pattern sequence is the ten defaults
in order followed by the processed `.gitignore` lines in file order; when no
file exists at the `.gitignore` path, load completes without raising with the
defaults alone; but when the file exists and cannot be opened (permission
denied, or the path is a directory) the error propagates out of load. -/
theorem load_gitignore_amended :
    (∀ (fs : FsNode) (d content : String),
      lookupNode fs (pathParts (gitignorePath d)) = some (.file true content) →
      loadGitignore fs d = .ok (defaultPatterns ++ gitignoreExtras content)) ∧
    (∀ (fs : FsNode) (d : String),
      lookupNode fs (pathParts (gitignorePath d)) = none →
      loadGitignore fs d = .ok defaultPatterns) ∧
    (∀ (fs : FsNode) (d content : String),
      lookupNode fs (pathParts (gitignorePath d)) = some (.file false content) →
      loadGitignore fs d = .error .permission) ∧
    (∀ (fs : FsNode) (d : String) (b : Bool) (cs : List (String × FsNode)),
      lookupNode fs (pathParts (gitignorePath d)) = some (.dir b cs) →
      loadGitignore fs d = .error .isADir) :=
  ⟨fun _ _ _ h => loadGitignore_file h, fun _ _ h => loadGitignore_absent h,
   fun _ _ _ h => loadGitignore_unreadable h, fun _ _ _ _ h => loadGitignore_dir h⟩

/-- Witness for the amended claim C3 at concrete filesystem states. -/
theorem load_gitignore_amended_witness :
    loadGitignore fsGitW "r" = .ok (defaultPatterns ++ gitignoreExtras "build/\n") ∧
    loadGitignore fsEmpty "missing" = .ok defaultPatterns ∧
    loadGitignore fsUnreadable "r" = .error .permission :=
  ⟨load_gitignore_amended.1 fsGitW "r" "build/\n" rfl,
   load_gitignore_amended.2.1 fsEmpty "missing" rfl,
   load_gitignore_amended.2.2.1 fsUnreadable "r" "x" rfl⟩

/-- Claim C4, counterexample: for the pattern `aa**a**b`, splitting around
the first occurrence of `**` gives the two parts `aa` and `a**b` (witnessed
by the decomposition below, whose first part holds no `**`); the path
`aa**b` starts with `aa` and ends with `a**b`, so the claim predicts a
match, yet `should_ignore` returns false: Python's `split('**')` splits
around every occurrence, yields three parts here, and the two-part rule is
skipped (and the glob match also fails on this path). -/
theorem doubleStar_first_split_counterexample :
    hasSS (String.data "aa**a**b") = true ∧
    ("aa" : String) ++ "**" ++ "a**b" = "aa**a**b" ∧
    hasSS (String.data "aa") = false ∧
    strStartsWith (normpath "aa**b") "aa" = true ∧
    strEndsWith (normpath "aa**b") "a**b" = true ∧
    shouldIgnore (defaultPatterns ++ ["aa**a**b"]) "aa**b" false = false :=
  ⟨rfl, by decide, rfl, rfl, rfl, rfl⟩

/-- Claim C4, amended: `should_ignore` splits the pattern around every
non-overlapping occurrence of `**` (Python `str.split`); when exactly two
parts result, it reports a match whenever the normalized path starts with
the first part and ends with the second. -/
theorem doubleStar_two_parts_match :
    ∀ (pats : List String) (pat path : String) (isDir : Bool) (a b : List Char),
      pat ∈ pats →
      (strEndsWith pat "/" && !isDir) = false →
      hasSS (rstripSlash pat).data = true →
      splitSS (rstripSlash pat).data = [a, b] →
      List.isPrefixOf a (normpath path).data = true →
      List.isSuffixOf b (normpath path).data = true →
      shouldIgnore pats path isDir = true := by
  intro pats pat path isDir a b hmem hskip hss hsplit hpre hsuf
  apply shouldIgnore_of_pat hmem
  simp only [matchesPat]
  rw [if_neg (by simp [hskip])]
  simp [hss, hsplit, hpre, hsuf]

/-- Witness for the amended claim C4: with pattern `a**b` (split parts `a`
and `b`), the path `aXb` is ignored. -/
theorem doubleStar_two_parts_match_witness :
    shouldIgnore ["a**b"] "aXb" false = true :=
  doubleStar_two_parts_match ["a**b"] "a**b" "aXb" false ['a'] ['b']
    (by simp) (by decide) (by decide) (by decide) (by decide) (by decide)

/-- Claim C5: a path that `should_ignore` accepts produces no output and no
recursion: at depth above zero the call returns before printing, and at the
root (where the parser is freshly loaded) likewise; every loaded pattern
list starts with the defaults, and a directory whose base name is
`node_modules` is ignored under any loaded pattern list, whatever the
`.gitignore` contributed. -/
theorem ignored_paths_print_nothing :
    (∀ (fs : FsNode) (fuel lvl : Nat) (d pre : String) (pats : List String),
      shouldIgnore pats (pathStr d) (isDirAt fs d) = true →
      treeGo fs (fuel + 1) d (lvl + 1) pre pats = .ok []) ∧
    (∀ (fs : FsNode) (fuel : Nat) (d pre : String) (pats0 pats : List String),
      loadGitignore fs d = .ok pats →
      shouldIgnore pats (pathStr d) (isDirAt fs d) = true →
      treeGo fs (fuel + 1) d 0 pre pats0 = .ok []) ∧
    (∀ (fs : FsNode) (d : String) (pats : List String),
      loadGitignore fs d = .ok pats → ∃ extra, pats = defaultPatterns ++ extra) ∧
    (∀ (extra : List String) (s : String) (isDir : Bool),
      basenameStr (normpath s) = "node_modules" →
      shouldIgnore (defaultPatterns ++ extra) s isDir = true) :=
  ⟨fun fs fuel lvl d pre pats h => treeGo_ignored_pos fs fuel lvl d pre pats h,
   fun fs fuel d pre pats0 pats hl h => treeGo_ignored_root fs fuel d pre pats0 pats hl h,
   fun _ _ _ h => loadGitignore_extends h,
   fun extra s isDir h => shouldIgnore_node_modules extra s isDir h⟩

/-- Witness for claim C5: running the tree on a root directory named
`node_modules` prints nothing, and a directory path with base name
`node_modules` is ignored by the loaded patterns. -/
theorem ignored_paths_print_nothing_witness :
    treeGo fsNm 1 "node_modules" 0 "" [] = .ok [] ∧
    shouldIgnore (defaultPatterns ++ []) "a/node_modules" true = true :=
  ⟨ignored_paths_print_nothing.2.1 fsNm 0 "node_modules" "" [] defaultPatterns rfl rfl,
   ignored_paths_print_nothing.2.2.2 [] "a/node_modules" true rfl⟩

/-- Claim C6: `should_ignore` reports a match when the whole-string glob
accepts either the full normalized path or the base name for any stored
pattern (with the trailing-slash skip not applying); `*` crosses path
separators (`a*b` matches `a/b`); and in the concrete scenario with a
`.gitignore` holding `*.log`, the file `x.log` is ignored and never printed
while `x.logger` is not ignored and appears in the output. -/
theorem glob_match_path_or_name :
    (∀ (pats : List String) (pat path : String) (isDir : Bool),
      pat ∈ pats →
      (strEndsWith pat "/" && !isDir) = false →
      (globMatch (rstripSlash pat).data (normpath path).data ||
        globMatch (rstripSlash pat).data (basenameStr (normpath path)).data) = true →
      shouldIgnore pats path isDir = true) ∧
    globMatch (String.data "a*b") (String.data "a/b") = true ∧
    tree fsLog 3 "proj" = .ok ["proj", "    ├── .gitignore", "    ├── x.logger"] ∧
    shouldIgnore (defaultPatterns ++ ["*.log"]) "proj/x.log" false = true ∧
    shouldIgnore (defaultPatterns ++ ["*.log"]) "proj/x.logger" false = false := by
  refine ⟨?_, rfl, rfl, rfl, rfl⟩
  intro pats pat path isDir hmem hskip hmatch
  apply shouldIgnore_of_pat hmem
  simp only [matchesPat]
  rw [if_neg (by simp [hskip])]
  simp [hmatch]

/-- Witness for claim C6: a `.gitignore` pattern `*.log` makes `x.log`
ignored through the base-name glob match. -/
theorem glob_match_path_or_name_witness :
    shouldIgnore ["*.log"] "x.log" false = true :=
  glob_match_path_or_name.1 ["*.log"] "*.log" "x.log" false (by simp) (by decide) (by decide)

/-- Claim C7: the sorted sibling list is a permutation of the listing, it is
pairwise ordered with every subdirectory before every non-directory and
case-insensitive lexicographic name order inside each group, and the
renderer emits children in exactly that order (concrete scenario of the
specification: `a.txt`, `b.txt` and `sub/` print as `sub`, `a.txt`,
`b.txt`). -/
theorem children_sorted_dirs_first :
    (∀ cs : List (String × FsNode), (sortChildren cs).Perm cs) ∧
    (∀ cs : List (String × FsNode),
      (sortChildren cs).Pairwise (fun a b =>
        (isDirNode a.2 = true ∧ isDirNode b.2 = false) ∨
        (isDirNode a.2 = isDirNode b.2 ∧
          charsLe (lowerChars a.1.data) (lowerChars b.1.data) = true))) ∧
    tree fsSort 3 "myproj" = .ok ["myproj", "    ├── sub", "    ├── a.txt", "    ├── b.txt"] := by
  refine ⟨sortChildren_perm, ?_, rfl⟩
  intro cs
  exact (sortChildren_sorted cs).imp (fun h => childLe_spec _ _ h)

/-- Claim C8: when a visited directory's children cannot be listed because
of a permission error, the renderer prints the directory's own line and
returns without raising and without printing anything for the subtree, both
at depth above zero and at the root. -/
theorem permission_denied_prints_own_line :
    (∀ (fs : FsNode) (fuel lvl : Nat) (d pre : String) (pats : List String)
        (sibs : List (String × FsNode)),
      shouldIgnore pats (pathStr d) (isDirAt fs d) = false →
      parentIterdir fs d = .ok sibs →
      isDirAt fs d = true →
      iterdirAt fs d = .error .permission →
      treeGo fs (fuel + 1) d (lvl + 1) pre pats =
        .ok [pre ++ (if sibs.isEmpty then "└── " else "├── ") ++ pathName d]) ∧
    (∀ (fs : FsNode) (fuel : Nat) (d pre : String) (pats0 pats : List String),
      loadGitignore fs d = .ok pats →
      shouldIgnore pats (pathStr d) (isDirAt fs d) = false →
      isDirAt fs d = true →
      iterdirAt fs d = .error .permission →
      treeGo fs (fuel + 1) d 0 pre pats0 = .ok [pathName d]) :=
  ⟨fun fs fuel lvl d pre pats sibs h1 h2 h3 h4 =>
      treeGo_perm_pos fs fuel lvl d pre pats sibs h1 h2 h3 h4,
   fun fs fuel d pre pats0 pats hl h1 h2 h3 =>
      treeGo_perm_root fs fuel d pre pats0 pats hl h1 h2 h3⟩

/-- Witness for claim C8: an unlistable subdirectory prints its own line and
nothing below it, and an unlistable root prints only the root line. -/
theorem permission_denied_prints_own_line_witness :
    treeGo fsPerm 1 "r/locked" 1 "    " defaultPatterns = .ok ["    ├── locked"] ∧
    treeGo fsPermRoot 1 "r" 0 "" [] = .ok ["r"] :=
  ⟨permission_denied_prints_own_line.1 fsPerm 0 0 "r/locked" "    " defaultPatterns
      [("locked", .dir false []), ("z", .file true "")] rfl rfl rfl rfl,
   permission_denied_prints_own_line.2 fsPermRoot 0 "r" "" [] defaultPatterns rfl rfl rfl rfl⟩

/-- Claim C9: rendering is deterministic: on one fixed filesystem state, two
invocations of the renderer on the same root produce identical output.  The
embedding is a pure function of the filesystem state, reflecting that the
source consults nothing besides the filesystem, so the equality is
definitional. -/
theorem render_deterministic :
    ∀ (fs : FsNode) (fuel : Nat) (d : String), tree fs fuel d = tree fs fuel d :=
  fun _ _ _ => rfl

/-- Claim C10: when the root path does not exist in the filesystem and its
base name (as the filter computes it, `os.path.basename` of the normalized
path) matches no default pattern, the program prints exactly one line, the
root's display name, and completes normally. -/
theorem nonexistent_root_prints_name :
    ∀ (fs : FsNode) (fuel : Nat) (p : String),
      lookupNode fs (pathParts p) = none →
      (∀ pat ∈ defaultPatterns,
        globMatch pat.data (basenameStr (normpath (pathStr p))).data = false) →
      tree fs (fuel + 1) p = .ok [pathName p] := by
  intro fs fuel p hnone hdef
  have hgit : lookupNode fs (pathParts (gitignorePath p)) = none := by
    rw [pathParts_gitignore]
    exact lookupNode_append_none hnone _
  have hload : loadGitignore fs p = .ok defaultPatterns := loadGitignore_absent hgit
  have hdir : isDirAt fs p = false := isDirAt_of_lookup_none hnone
  have hig : shouldIgnore defaultPatterns (pathStr p) (isDirAt fs p) = false :=
    shouldIgnore_defaults_false (pathStr p) (isDirAt fs p) hdef
  exact treeGo_root_nondir fs fuel p "" [] defaultPatterns hload hig hdir

/-- Witness for claim C10: a missing root path prints just its name. -/
theorem nonexistent_root_prints_name_witness :
    tree fsEmpty 1 "missing" = .ok ["missing"] :=
  nonexistent_root_prints_name fsEmpty 0 "missing" rfl (by decide)
